import Mathlib

/-!
Shallow embedding of the LoRaWAN ADR ns-3 scenario helpers.

Numeric code that the C++ performs on `double` is modelled over `ℚ`
(exact rational arithmetic); `std::ceil` becomes `Int.ceil`.  Each
definition mirrors one function of the repository, named after it.
-/

namespace LorawanAdr

/-! ### Core LoRa PHY math, `scratch/common/lora_utils.h` -/

/-- Shallow embedding of `std::clamp<uint8_t>(sf, 7, 12)` as used by `ToA_ms`. -/
def clampSf (sf : ℕ) : ℕ := max 7 (min sf 12)

/-- `SymbolTime_ms` from `lora_utils.h`: `(2^sf / bw_hz) * 1000`. -/
def SymbolTime_ms (sf : ℕ) (bw_hz : ℚ) : ℚ := ((2 : ℚ) ^ sf / bw_hz) * 1000

/-- `LdrOptimization` from `lora_utils.h`: low-data-rate optimization flag. -/
def LdrOptimization (sf : ℕ) : ℤ := if 11 ≤ sf then 1 else 0

/-- The `IH` term of the Semtech formula: 0 for an explicit header, 1 otherwise. -/
def headerTerm (explicit_header : Bool) : ℤ := if explicit_header then 0 else 1

/-- The `CRC` term of the Semtech formula: 1 when the CRC is on. -/
def crcTerm (crc_on : Bool) : ℤ := if crc_on then 1 else 0

/-- `lora::ToA_ms` from `lora_utils.h`: time on air in milliseconds.
It clamps `sf` to `[7,12]`, then applies the Semtech formula. -/
def ToA_ms (sf : ℕ) (bw_hz : ℚ) (cr : ℕ) (payload_bytes : ℕ)
    (explicit_header crc_on : Bool) (preamble_sym extra_preamble : ℚ) : ℚ :=
  let sfc := clampSf sf
  let tsym := SymbolTime_ms sfc bw_hz
  let tpreamble := (preamble_sym + extra_preamble) * tsym
  let DE := LdrOptimization sfc
  let IH := headerTerm explicit_header
  let CRC := crcTerm crc_on
  let num : ℚ := max 0
    (((⌈(8 * (payload_bytes : ℚ) - 4 * (sfc : ℚ) + 28 + 16 * (CRC : ℚ) - 20 * (IH : ℚ)) /
        (4 * ((sfc : ℚ) - 2 * (DE : ℚ)))⌉ : ℤ) : ℚ) * ((cr : ℚ) + 4))
  let payload_symbols := 8 + num
  tpreamble + payload_symbols * tsym

/-- `scenario::MetricsCalculator::CalculateToA` from
`scenario-00-simple/metrics_calculator.cc`: the same Semtech formula with the
CRC fixed on, an explicit header, the default 8 + 4.25 preamble, and no
clamping of `sf`.  Works in seconds internally, converts to ms at the end. -/
def CalculateToA (sf : ℕ) (bw_hz : ℚ) (cr : ℕ) (payload_bytes : ℕ) : ℚ :=
  let t_sym := (2 : ℚ) ^ sf / bw_hz
  let t_preamble := (8 + 4.25) * t_sym
  let de : ℤ := if 11 ≤ sf then 1 else 0
  let payload_symbols : ℚ :=
    8 + max ((((⌈(8 * (payload_bytes : ℚ) - 4 * (sf : ℚ) + 28 + 16) /
        (4 * ((sf : ℚ) - 2 * (de : ℚ)))⌉ : ℤ) : ℚ) * ((cr : ℚ) + 4))) 0
  let t_payload := payload_symbols * t_sym
  (t_preamble + t_payload) * 1000

/-- The time-on-air formula exactly as the claim words it: `sf` clamped to
`[7,12]` before use, `tsym = 2^sf / bwHz * 1000`,
`tpreamble = (preambleSymbols + extraPreamble) * tsym`,
`payloadSymbols = 8 + max(0, ceil((8*payload - 4*sf + 28 + 16*CRC - 20*IH) /
(4*(sf - 2*DE))) * (codingRateDenomOffset + 4))`, `DE = 1` iff `sf >= 11`,
result `tpreamble + payloadSymbols * tsym`. -/
def claimedToA (sf : ℕ) (bw_hz : ℚ) (codingRateDenomOffset : ℕ) (payload : ℕ)
    (explicitHeader crcOn : Bool) (preambleSymbols extraPreamble : ℚ) : ℚ :=
  let s := max 7 (min sf 12)
  let DE : ℚ := if 11 ≤ s then 1 else 0
  let IH : ℚ := if explicitHeader then 0 else 1
  let CRC : ℚ := if crcOn then 1 else 0
  let tsym : ℚ := 2 ^ s / bw_hz * 1000
  let tpreamble := (preambleSymbols + extraPreamble) * tsym
  let payloadSymbols : ℚ :=
    8 + max 0 (((⌈(8 * (payload : ℚ) - 4 * (s : ℚ) + 28 + 16 * CRC - 20 * IH) /
        (4 * ((s : ℚ) - 2 * DE))⌉ : ℤ) : ℚ) * ((codingRateDenomOffset : ℚ) + 4))
  tpreamble + payloadSymbols * tsym

/-! ### Rate helpers, `scratch/common/lora_utils.h` -/

/-- `lora::RatePercent`: `100 * num / den`, or 0 when the denominator is 0. -/
def RatePercent (num den : ℕ) : ℚ :=
  if den = 0 then 0 else 100 * (num : ℚ) / (den : ℚ)

/-- `lora::PdrPercent`: packet delivery ratio in percent. -/
def PdrPercent (received sent : ℕ) : ℚ := RatePercent received sent

/-! ### Capture classifier, `scenario-06-collision-capture.cc`, `ExportResults` -/

/-- Per-cohort PDR as `ExportResults` computes it: guarded by `sent > 0`. -/
def cohortPdr (received sent : ℕ) : ℚ :=
  if 0 < sent then PdrPercent received sent else 0

/-- `captureEffectStrength = nearPdr - farPdr` from `ExportResults`. -/
def captureStrength (nearSent nearReceived farSent farReceived : ℕ) : ℚ :=
  cohortPdr nearReceived nearSent - cohortPdr farReceived farSent

/-- The four capture-effect tiers written by `ExportResults`. -/
inductive CaptureLevel
  | NONE
  | WEAK
  | MODERATE
  | STRONG
deriving DecidableEq, Repr

/-- The tier cascade of `ExportResults`: `STRONG` above 20, `MODERATE`
above 10, `WEAK` above 5, otherwise `NONE`. -/
def captureLevel (s : ℚ) : CaptureLevel :=
  if 20 < s then .STRONG
  else if 10 < s then .MODERATE
  else if 5 < s then .WEAK
  else .NONE

/-! ### Percentile, `scenario-00-simple/traces.cc`, `CalculatePercentile` -/

/-- `TraceCallbacks::CalculatePercentile`: 0 for an empty sample list;
otherwise sort a copy ascending, take the element at index
`(size_t)(percentile / 100 * size)`, clamped down to `size - 1`.
`std::sort` is embedded as an ascending insertion sort. -/
def CalculatePercentile (data : List ℚ) (percentile : ℚ) : ℚ :=
  if data = [] then 0
  else
    let sorted := List.insertionSort (· ≤ ·) data
    let index0 := ⌊percentile / 100 * (data.length : ℚ)⌋₊
    let index := if data.length ≤ index0 then data.length - 1 else index0
    sorted.getD index 0

/-! ### Propagation / RF helpers, `scratch/common/lora_utils.h`

`std::log10` has no exact rational counterpart, so the embedding takes the
base-10 logarithm as an explicit function parameter `log10`; every theorem
below holds for an arbitrary interpretation of it. -/

/-- `lora::PathLossLogDistance_dB`: `refLoss + 10*n*log10 d`, with `d`
clamped up to 1 m first. -/
def PathLossLogDistance_dB (log10 : ℚ → ℚ) (d_m refLoss_dB n : ℚ) : ℚ :=
  refLoss_dB + 10 * n * log10 (if d_m < 1 then 1 else d_m)

/-- `lora::Rssi_dBm_fromDistance`: transmit power minus log-distance path loss. -/
def Rssi_dBm_fromDistance (log10 : ℚ → ℚ) (txPower_dBm d_m refLoss_dB n : ℚ) : ℚ :=
  txPower_dBm - PathLossLogDistance_dB log10 d_m refLoss_dB n

/-- Reference loss at 1 m that `SetupStandardChannel` (`scenario_utils.h`)
configures on the log-distance channel model: `loss->SetReference(1, 7.7)`. -/
def channelRefLoss_dB : ℚ := 7.7

/-- Path-loss exponent that `SetupStandardChannel` configures:
`loss->SetPathLossExponent(3.76)`. -/
def channelPathLossExponent : ℚ := 3.76

/-- The estimated RSSI that `BuildDeviceMapping`
(`scenario-06-collision-capture.cc`) computes for cohort assignment:
`lora::Rssi_dBm_fromDistance(14.0, distance, 3.0, 3.76)` — the literal `3.0`
(annotated `sigma_dB` in the call) is passed in the `refLoss_dB` position. -/
def cohortEstimatedRssi (log10 : ℚ → ℚ) (distance : ℚ) : ℚ :=
  Rssi_dBm_fromDistance log10 14 distance 3 3.76

/-- The estimated RSSI that `ExportResults` recomputes for the CSV, and that
the spec requires for cohort assignment: reference loss and exponent equal to
the channel configuration (7.7 dB at 1 m, exponent 3.76). -/
def channelCoupledEstimatedRssi (log10 : ℚ → ℚ) (distance : ℚ) : ℚ :=
  Rssi_dBm_fromDistance log10 14 distance channelRefLoss_dB channelPathLossExponent

/-! ### Cohort threshold, `scenario-06-collision-capture.cc`, `BuildDeviceMapping` -/

/-- The cohort threshold of `BuildDeviceMapping`: `std::nth_element` at index
`size / 2` leaves at `mid` exactly the element an ascending sort would place
there, so the embedding reads that index of the ascending sort. -/
def cohortThreshold (estRssi : List ℚ) : ℚ :=
  (List.insertionSort (· ≤ ·) estRssi).getD (estRssi.length / 2) 0

/-- The second pass of `BuildDeviceMapping`: `isNear = (estRssi >= threshold)`. -/
def isNearCohort (estRssi : List ℚ) (x : ℚ) : Bool :=
  cohortThreshold estRssi ≤ x

/-! ### Detailed propagation model, `scenario-00-simple/detailed_propagation_model.cc` -/

/-- `scenario::PropagationDetails`: the cached per-pair loss breakdown. -/
structure PropagationDetails where
  distance_m : ℚ
  path_loss_db : ℚ
  shadowing_db : ℚ
  total_loss_db : ℚ
deriving DecidableEq, Repr

/-- The zeroed breakdown `GetLastDetails` returns on a cache miss. -/
def emptyDetails : PropagationDetails := ⟨0, 0, 0, 0⟩

/-- `DetailedPropagationLossModel::DoCalcRxPower` without the cache write:
the final RX power and the `PropagationDetails` record it builds.  The
optional sub-models are functions of (input power, distance). -/
def doCalcRxPower (pathLossModel shadowingModel : Option (ℚ → ℚ → ℚ))
    (txPowerDbm distance : ℚ) : ℚ × PropagationDetails :=
  let rxAfterPathLoss :=
    match pathLossModel with
    | some m => m txPowerDbm distance
    | none => txPowerDbm
  let rxAfterShadowing :=
    match shadowingModel with
    | some m => m rxAfterPathLoss distance
    | none => rxAfterPathLoss
  let shadowing_db :=
    match shadowingModel with
    | some _ => rxAfterPathLoss - rxAfterShadowing
    | none => 0
  (rxAfterShadowing,
   { distance_m := distance
     path_loss_db := txPowerDbm - rxAfterPathLoss
     shadowing_db := shadowing_db
     total_loss_db := txPowerDbm - rxAfterShadowing })

/-- The details cache `m_detailsCache`, newest write first. -/
def DetailsCache : Type := List ((ℕ × ℕ) × PropagationDetails)

/-- One loss evaluation: the node pair and the inputs of `DoCalcRxPower`. -/
structure PropEvent where
  txNode : ℕ
  rxNode : ℕ
  txPower : ℚ
  distance : ℚ

/-- The cache write of `DoCalcRxPower`: `m_detailsCache[{idA,idB}] = details`. -/
def writeDetails (pathLossModel shadowingModel : Option (ℚ → ℚ → ℚ))
    (cache : DetailsCache) (e : PropEvent) : DetailsCache :=
  ((e.txNode, e.rxNode), (doCalcRxPower pathLossModel shadowingModel e.txPower e.distance).2) :: cache

/-- A sequence of `DoCalcRxPower` evaluations, oldest first. -/
def runPropEvents (pathLossModel shadowingModel : Option (ℚ → ℚ → ℚ))
    (events : List PropEvent) (cache : DetailsCache) : DetailsCache :=
  events.foldl (writeDetails pathLossModel shadowingModel) cache

/-- `DetailedPropagationLossModel::GetLastDetails`: the cached entry for the
ordered pair, or the zeroed breakdown when the pair was never evaluated. -/
def GetLastDetails (cache : DetailsCache) (a b : ℕ) : PropagationDetails :=
  ((List.find? (fun kv => decide (kv.1 = (a, b))) cache).map Prod.snd).getD emptyDetails

/-! ### Packet identity and deduplication, `lora_utils.h` and
`scenario-08-multi-gateway.cc` -/

/-- `lora::MakePacketKey`: `(u64)devaddr << 32 | (u64)fcnt` on `uint32_t`
inputs; the OR of disjoint bit ranges is addition. -/
def MakePacketKey (devaddr fcnt : ℕ) : ℕ :=
  (devaddr % 2 ^ 32) * 2 ^ 32 + fcnt % 2 ^ 32

/-- One gateway hearing after the MAC/frame headers parsed as an uplink:
the gateway node id from the trace context, and the device address and
frame counter from the frame header. -/
structure Hearing where
  gwNodeId : ℕ
  devAddr : ℕ
  fcnt : ℕ

/-- The global counter state of `scenario-08-multi-gateway.cc`.  The C++
`std::map` counters (value-initialized to 0 on first access) are total
functions from ids to counts; the `unordered_set` of seen keys is a list
queried by membership. -/
structure DedupState where
  seenKeys : List ℕ
  totalRaw : ℕ
  totalUnique : ℕ
  totalDuplicate : ℕ
  rawHearingsPerNode : ℕ → ℕ
  uniqueRecvPerNode : ℕ → ℕ
  rawPerGwPerNode : ℕ → ℕ → ℕ
  uniquePerGwPerNode : ℕ → ℕ → ℕ
  totalRawPerGw : ℕ → ℕ

/-- All counters zero, no key seen: the state after `BuildMappingScenario8`. -/
def initDedupState : DedupState :=
  { seenKeys := []
    totalRaw := 0
    totalUnique := 0
    totalDuplicate := 0
    rawHearingsPerNode := fun _ => 0
    uniqueRecvPerNode := fun _ => 0
    rawPerGwPerNode := fun _ _ => 0
    uniquePerGwPerNode := fun _ _ => 0
    totalRawPerGw := fun _ => 0 }

/-- `OnGatewayReceiveWithContext` from `scenario-08-multi-gateway.cc`, for a
hearing whose headers already parsed as an uplink.  `gwNodeIdToIdx` and
`deviceToNodeMap` are the two lookup maps built during setup.  Mirrors the
source order: insert the key and count unique/duplicate first, then return
early when either lookup fails, and only then bump the raw counters (plus the
per-node unique counters when the key was first seen). -/
def OnGatewayReceiveWithContext (gwNodeIdToIdx deviceToNodeMap : ℕ → Option ℕ)
    (st : DedupState) (h : Hearing) : DedupState :=
  let key := MakePacketKey h.devAddr h.fcnt
  let firstTime := key ∉ st.seenKeys
  let st1 := { st with
    seenKeys := key :: st.seenKeys
    totalUnique := if firstTime then st.totalUnique + 1 else st.totalUnique
    totalDuplicate := if firstTime then st.totalDuplicate else st.totalDuplicate + 1 }
  match gwNodeIdToIdx h.gwNodeId with
  | none => st1
  | some gwIdx =>
    match deviceToNodeMap h.devAddr with
    | none => st1
    | some nodeId =>
      let st2 := { st1 with
        totalRaw := st1.totalRaw + 1
        rawHearingsPerNode := Function.update st1.rawHearingsPerNode nodeId
          (st1.rawHearingsPerNode nodeId + 1)
        rawPerGwPerNode := Function.update st1.rawPerGwPerNode nodeId
          (Function.update (st1.rawPerGwPerNode nodeId) gwIdx
            (st1.rawPerGwPerNode nodeId gwIdx + 1))
        totalRawPerGw := Function.update st1.totalRawPerGw gwIdx
          (st1.totalRawPerGw gwIdx + 1) }
      if firstTime then
        { st2 with
          uniqueRecvPerNode := Function.update st2.uniqueRecvPerNode nodeId
            (st2.uniqueRecvPerNode nodeId + 1)
          uniquePerGwPerNode := Function.update st2.uniquePerGwPerNode nodeId
            (Function.update (st2.uniquePerGwPerNode nodeId) gwIdx
              (st2.uniquePerGwPerNode nodeId gwIdx + 1)) }
      else st2

/-- A whole run: fold the handler over the hearings, oldest first. -/
def runHearings (gwNodeIdToIdx deviceToNodeMap : ℕ → Option ℕ)
    (hearings : List Hearing) (st : DedupState) : DedupState :=
  hearings.foldl (OnGatewayReceiveWithContext gwNodeIdToIdx deviceToNodeMap) st

/-- The evaluation a spec reader would call "the most recent one for the
ordered pair `(a, b)`": the last event of the run whose node pair is `(a, b)`. -/
def mostRecentEval (events : List PropEvent) (a b : ℕ) : Option PropEvent :=
  events.reverse.find? (fun e => decide (e.txNode = a ∧ e.rxNode = b))

/-- The integer numerator of the Semtech payload-symbol ratio:
`8*payload - 4*sf + 28 + 16*CRC - 20*IH`. -/
def Anum (payload : ℕ) (eh crc : Bool) (sf : ℕ) : ℤ :=
  8 * payload - 4 * sf + 28 + 16 * crcTerm crc - 20 * headerTerm eh

/-- The integer denominator of the Semtech payload-symbol ratio:
`4*(sf - 2*DE)`. -/
def Bden (sf : ℕ) : ℤ := 4 * ((sf : ℤ) - 2 * LdrOptimization sf)

/-- The clamped payload-symbol multiplier `max(0, ceil(A/B))`. -/
def mCeil (payload : ℕ) (eh crc : Bool) (sf : ℕ) : ℤ :=
  max 0 ⌈((Anum payload eh crc sf : ℚ) / (Bden sf : ℚ))⌉

/-! ### Theorems -/

/-- C2: the capture classifier's cohort RSSI (`BuildDeviceMapping`) does NOT
use the channel's reference loss: it passes 3.0 where `refLoss_dB` belongs,
while the channel is configured with 7.7 dB at 1 m, so for every distance and
every interpretation of `log10` the cohort estimate sits exactly 4.7 dB above
the channel-coupled estimate the spec requires, and the two never agree. -/
theorem C2_cohort_rssi_refloss_mismatch (log10 : ℚ → ℚ) (d : ℚ) :
    cohortEstimatedRssi log10 d = channelCoupledEstimatedRssi log10 d + 47 / 10
    ∧ cohortEstimatedRssi log10 d ≠ channelCoupledEstimatedRssi log10 d := by
  unfold cohortEstimatedRssi channelCoupledEstimatedRssi Rssi_dBm_fromDistance
    PathLossLogDistance_dB channelRefLoss_dB channelPathLossExponent
  constructor
  · ring_nf
  · intro hcontra
    have h47 : (0 : ℚ) = 47 / 10 := by linarith [hcontra]
    norm_num at h47

/-- C3 counterexample: `MetricsCalculator::CalculateToA` does not clamp its
spreading factor, so at `sf = 13` it differs from the claimed formula (which
clamps to `[7,12]` before use), with the other arguments at the defaults. -/
theorem C3_counterexample :
    CalculateToA 13 125000 1 51 ≠ claimedToA 13 125000 1 51 true true 8 4.25 := by
  norm_num [CalculateToA, claimedToA]
  rw [show ⌈(100 : ℚ) / 11⌉ = (10 : ℤ) by rw [Int.ceil_eq_iff]; norm_num,
      show ⌈(101 : ℚ) / 10⌉ = (11 : ℤ) by rw [Int.ceil_eq_iff]; norm_num]
  norm_num

/-- C3 amended: `lora::ToA_ms` clamps `sf` to `[7,12]` and agrees with the
claimed Semtech formula for every input, while
`MetricsCalculator::CalculateToA` (explicit header, CRC on, default preamble)
agrees with the claimed formula only when `sf` already lies in `[7,12]`. -/
theorem C3_toa_formula (sf : ℕ) (bw : ℚ) (cr payload : ℕ) (eh crc : Bool)
    (pre extra : ℚ) (hbw : 0 < bw) :
    ToA_ms sf bw cr payload eh crc pre extra
      = claimedToA sf bw cr payload eh crc pre extra
    ∧ (7 ≤ sf → sf ≤ 12 →
        CalculateToA sf bw cr payload = claimedToA sf bw cr payload true true 8 4.25) := by
  constructor
  · cases eh <;> cases crc <;>
      simp only [ToA_ms, claimedToA, clampSf, SymbolTime_ms, LdrOptimization,
        headerTerm, crcTerm, Int.cast_ite, Int.cast_one, Int.cast_zero,
        Bool.false_eq_true, if_true, if_false, reduceIte]
  · intro h7 h12
    have hclamp : max 7 (min sf 12) = sf := by omega
    have hde : (if 11 ≤ sf then (1 : ℤ) else 0) = LdrOptimization sf := rfl
    simp only [CalculateToA, claimedToA, hclamp, Int.cast_ite, Int.cast_one,
      Int.cast_zero, if_true, reduceIte]
    rw [max_comm]
    ring_nf

/-- C3 witness: the amended formula equivalence at the in-range input
`sf = 7`, default bandwidth, coding rate, and payload. -/
theorem C3_toa_formula_witness :
    CalculateToA 7 125000 1 51 = claimedToA 7 125000 1 51 true true 8 4.25 :=
  (C3_toa_formula 7 125000 1 51 true true 8 4.25 (by norm_num)).2
    (by norm_num) (by norm_num)

/-- C4: the capture-effect strength is the near-cohort PDR minus the
far-cohort PDR (each defaulting to 0 on an empty cohort), tiers are assigned
by the cascade STRONG > 20 ≥ MODERATE > 10 ≥ WEAK > 5 ≥ NONE, and the
synthetic cohorts 100 sent / 95 received versus 100 sent / 40 received give
strength 55 and tier STRONG. -/
theorem C4_capture_strength_tiers (ns nr fs fr : ℕ) :
    captureStrength ns nr fs fr = PdrPercent nr ns - PdrPercent fr fs
    ∧ (captureLevel (captureStrength ns nr fs fr) = .STRONG
        ↔ 20 < captureStrength ns nr fs fr)
    ∧ (captureLevel (captureStrength ns nr fs fr) = .MODERATE
        ↔ 10 < captureStrength ns nr fs fr ∧ captureStrength ns nr fs fr ≤ 20)
    ∧ (captureLevel (captureStrength ns nr fs fr) = .WEAK
        ↔ 5 < captureStrength ns nr fs fr ∧ captureStrength ns nr fs fr ≤ 10)
    ∧ (captureLevel (captureStrength ns nr fs fr) = .NONE
        ↔ captureStrength ns nr fs fr ≤ 5)
    ∧ captureStrength 100 95 100 40 = 55
    ∧ captureLevel (captureStrength 100 95 100 40) = .STRONG := by
  have hpdr : ∀ r s : ℕ, cohortPdr r s = PdrPercent r s := by
    intro r s
    rcases Nat.eq_zero_or_pos s with hs | hs
    · simp [cohortPdr, PdrPercent, RatePercent, hs]
    · simp [cohortPdr, hs]
  have htier : ∀ s : ℚ,
      (captureLevel s = .STRONG ↔ 20 < s)
      ∧ (captureLevel s = .MODERATE ↔ 10 < s ∧ s ≤ 20)
      ∧ (captureLevel s = .WEAK ↔ 5 < s ∧ s ≤ 10)
      ∧ (captureLevel s = .NONE ↔ s ≤ 5) := by
    intro s
    unfold captureLevel
    split_ifs with h1 h2 h3 <;>
      refine ⟨?_, ?_, ?_, ?_⟩ <;> simp_all <;> try intro hx
    all_goals try linarith
  have h55 : captureStrength 100 95 100 40 = 55 := by
    norm_num [captureStrength, cohortPdr, PdrPercent, RatePercent]
  refine ⟨?_, (htier _).1, (htier _).2.1, (htier _).2.2.1, (htier _).2.2.2, h55, ?_⟩
  · unfold captureStrength
    rw [hpdr, hpdr]
  · rw [h55]
    norm_num [captureLevel]

/-- C5: for a non-empty population the cohort threshold is the element an
ascending sort places at index `size / 2` (the upper median: for the even
population `[1, 3]` it is 3, not the averaged 2), and a device is NEAR
exactly when its estimated RSSI is at least the threshold. -/
theorem C5_cohort_threshold (l : List ℚ) (hl : l ≠ []) (s : List ℚ)
    (hperm : s.Perm l) (hsorted : s.Sorted (· ≤ ·)) :
    cohortThreshold l = s.getD (l.length / 2) 0
    ∧ (∀ x : ℚ, isNearCohort l x = true ↔ cohortThreshold l ≤ x)
    ∧ cohortThreshold [1, 3] = 3 := by
  refine ⟨?_, ?_, ?_⟩
  · have hsort_eq : List.insertionSort (· ≤ ·) l = s :=
      List.eq_of_perm_of_sorted ((List.perm_insertionSort _ l).trans hperm.symm)
        (List.sorted_insertionSort _ l) hsorted
    unfold cohortThreshold
    rw [hsort_eq]
  · intro x
    simp [isNearCohort]
  · norm_num [cohortThreshold, List.insertionSort, List.orderedInsert]

/-- C5 witness: the theorem applied to the concrete population `[1, 3]`. -/
theorem C5_cohort_threshold_witness : cohortThreshold [1, 3] = 3 :=
  (C5_cohort_threshold [1, 3] (by simp) [1, 3] (List.Perm.refl _)
    (by norm_num [List.Sorted])).2.2

/-- C6: `CalculatePercentile` returns 0 on an empty sample list, and
otherwise the element of the ascending sort at index
`floor(p/100 * size)` clamped to `size - 1`; in particular
`Percentile([10,20,30,40], 50) = 30`. -/
theorem C6_percentile (data : List ℚ) (p : ℚ) (s : List ℚ) (hp : 0 ≤ p)
    (hperm : s.Perm data) (hsorted : s.Sorted (· ≤ ·)) :
    CalculatePercentile [] p = 0
    ∧ CalculatePercentile [10, 20, 30, 40] 50 = 30
    ∧ CalculatePercentile data p
        = s.getD (min ⌊p / 100 * (data.length : ℚ)⌋₊ (data.length - 1)) 0 := by
  refine ⟨by simp [CalculatePercentile], ?_, ?_⟩
  · norm_num [CalculatePercentile, List.insertionSort, List.orderedInsert]
    decide
  · by_cases hdata : data = []
    · subst hdata
      have hs : s = [] := hperm.eq_nil
      subst hs
      simp [CalculatePercentile]
    · have hsort_eq : List.insertionSort (· ≤ ·) data = s :=
        List.eq_of_perm_of_sorted ((List.perm_insertionSort _ data).trans hperm.symm)
          (List.sorted_insertionSort _ data) hsorted
      have hlen : 1 ≤ data.length := List.length_pos.mpr hdata
      unfold CalculatePercentile
      rw [if_neg hdata, hsort_eq]
      dsimp only
      split_ifs with hc <;> (congr 1; omega)

/-- C6 witness: the theorem applied to the concrete sample list `[20, 10]`
with `p = 50`, giving the upper of the two samples. -/
theorem C6_percentile_witness : CalculatePercentile [20, 10] 50 = 20 := by
  have h := (C6_percentile [20, 10] 50 [10, 20] (by norm_num) (by decide)
    (by norm_num [List.Sorted])).2.2
  norm_num at h
  simpa using h

/-- C10: every `PropagationDetails` record built by `DoCalcRxPower` satisfies
`total_loss_db = path_loss_db + shadowing_db` exactly, and with no shadowing
model configured the shadowing component is 0 and the total loss equals the
path loss. -/
theorem C10_loss_decomposition (pl sh : Option (ℚ → ℚ → ℚ)) (tx d : ℚ) :
    (doCalcRxPower pl sh tx d).2.total_loss_db
      = (doCalcRxPower pl sh tx d).2.path_loss_db
        + (doCalcRxPower pl sh tx d).2.shadowing_db
    ∧ (doCalcRxPower pl none tx d).2.shadowing_db = 0
    ∧ (doCalcRxPower pl none tx d).2.total_loss_db
        = (doCalcRxPower pl none tx d).2.path_loss_db := by
  cases pl <;> cases sh <;> simp [doCalcRxPower]

lemma getLastDetails_write (pl sh : Option (ℚ → ℚ → ℚ)) (cache : DetailsCache)
    (e : PropEvent) (a b : ℕ) :
    GetLastDetails (writeDetails pl sh cache e) a b
      = if e.txNode = a ∧ e.rxNode = b
          then (doCalcRxPower pl sh e.txPower e.distance).2
          else GetLastDetails cache a b := by
  unfold GetLastDetails writeDetails
  rw [List.find?_cons]
  by_cases h : e.txNode = a ∧ e.rxNode = b
  · have hkey : ((e.txNode, e.rxNode) = (a, b)) := by
      rw [Prod.mk.injEq]
      exact h
    simp [hkey, h]
  · have hkey : ¬((e.txNode, e.rxNode) = (a, b)) := by
      rw [Prod.mk.injEq]
      exact h
    simp [hkey, h]

lemma getLastDetails_run (pl sh : Option (ℚ → ℚ → ℚ)) (events : List PropEvent)
    (cache : DetailsCache) (a b : ℕ) :
    GetLastDetails (runPropEvents pl sh events cache) a b
      = ((mostRecentEval events a b).map
            (fun e => (doCalcRxPower pl sh e.txPower e.distance).2)).getD
          (GetLastDetails cache a b) := by
  induction events generalizing cache with
  | nil => simp [runPropEvents, mostRecentEval]
  | cons e es ih =>
    have hstep : runPropEvents pl sh (e :: es) cache
        = runPropEvents pl sh es (writeDetails pl sh cache e) := rfl
    rw [hstep, ih]
    unfold mostRecentEval
    rw [List.reverse_cons, List.find?_append]
    cases hfind : List.find? (fun e => decide (e.txNode = a ∧ e.rxNode = b)) es.reverse with
    | some x => simp [hfind]
    | none =>
      rw [getLastDetails_write]
      by_cases h : e.txNode = a ∧ e.rxNode = b <;> simp [hfind, h]

/-- C7: after any sequence of loss evaluations, `GetLastDetails` returns the
breakdown cached by the most recent evaluation for that ordered node pair,
and the all-zero breakdown `⟨0, 0, 0, 0⟩` when that pair was never evaluated;
it is a total function. -/
theorem C7_get_last_details (pl sh : Option (ℚ → ℚ → ℚ))
    (events : List PropEvent) (a b : ℕ) :
    GetLastDetails (runPropEvents pl sh events []) a b
      = ((mostRecentEval events a b).map
            (fun e => (doCalcRxPower pl sh e.txPower e.distance).2)).getD
          ⟨0, 0, 0, 0⟩ := by
  rw [getLastDetails_run]
  rfl

lemma dedup_step_resolved (gwMap devMap : ℕ → Option ℕ) (st : DedupState)
    (h : Hearing) (gwIdx nodeId : ℕ)
    (hgw : gwMap h.gwNodeId = some gwIdx) (hdev : devMap h.devAddr = some nodeId) :
    (OnGatewayReceiveWithContext gwMap devMap st h).totalRaw = st.totalRaw + 1
    ∧ (OnGatewayReceiveWithContext gwMap devMap st h).totalUnique
        + (OnGatewayReceiveWithContext gwMap devMap st h).totalDuplicate
        = st.totalUnique + st.totalDuplicate + 1
    ∧ (OnGatewayReceiveWithContext gwMap devMap st h).rawHearingsPerNode nodeId
        = st.rawHearingsPerNode nodeId + 1
    ∧ (OnGatewayReceiveWithContext gwMap devMap st h).rawPerGwPerNode nodeId gwIdx
        = st.rawPerGwPerNode nodeId gwIdx + 1
    ∧ (OnGatewayReceiveWithContext gwMap devMap st h).totalRawPerGw gwIdx
        = st.totalRawPerGw gwIdx + 1 := by
  unfold OnGatewayReceiveWithContext
  rw [hgw, hdev]
  by_cases hfirst : MakePacketKey h.devAddr h.fcnt ∉ st.seenKeys <;>
    simp [hfirst, Function.update_same] <;> omega

lemma dedup_run_counts (gwMap devMap : ℕ → Option ℕ) (hearings : List Hearing)
    (st : DedupState)
    (hres : ∀ h ∈ hearings, (gwMap h.gwNodeId).isSome ∧ (devMap h.devAddr).isSome) :
    (runHearings gwMap devMap hearings st).totalRaw = st.totalRaw + hearings.length
    ∧ (runHearings gwMap devMap hearings st).totalUnique
        + (runHearings gwMap devMap hearings st).totalDuplicate
        = st.totalUnique + st.totalDuplicate + hearings.length := by
  induction hearings generalizing st with
  | nil => simp [runHearings]
  | cons h hs ih =>
    have hmem := hres h (List.mem_cons_self h hs)
    obtain ⟨gwIdx, hgw⟩ := Option.isSome_iff_exists.mp hmem.1
    obtain ⟨nodeId, hdev⟩ := Option.isSome_iff_exists.mp hmem.2
    have hstep := dedup_step_resolved gwMap devMap st h gwIdx nodeId hgw hdev
    have hrun : runHearings gwMap devMap (h :: hs) st
        = runHearings gwMap devMap hs (OnGatewayReceiveWithContext gwMap devMap st h) := rfl
    have ihs := ih (OnGatewayReceiveWithContext gwMap devMap st h)
      (fun x hx => hres x (List.mem_cons_of_mem h hx))
    rw [hrun]
    refine ⟨?_, ?_⟩
    · rw [ihs.1, hstep.1]
      simp [List.length_cons]
      omega
    · rw [ihs.2, hstep.2.1]
      simp [List.length_cons]
      omega

/-- C1 counterexample: one hearing whose gateway node id is missing from the
gateway-index map still counts as unique, but never reaches the raw
counters, so `totalUnique + totalDuplicate = 1 ≠ 0 = totalRaw`, `totalUnique
> totalRaw`, and the raw counters were not incremented on this hearing. -/
theorem C1_counterexample :
    (runHearings (fun _ => none) (fun _ => none) [⟨5, 1, 0⟩] initDedupState).totalUnique = 1
    ∧ (runHearings (fun _ => none) (fun _ => none) [⟨5, 1, 0⟩] initDedupState).totalDuplicate = 0
    ∧ (runHearings (fun _ => none) (fun _ => none) [⟨5, 1, 0⟩] initDedupState).totalRaw = 0
    ∧ ¬((runHearings (fun _ => none) (fun _ => none) [⟨5, 1, 0⟩] initDedupState).totalUnique
          + (runHearings (fun _ => none) (fun _ => none) [⟨5, 1, 0⟩] initDedupState).totalDuplicate
        = (runHearings (fun _ => none) (fun _ => none) [⟨5, 1, 0⟩] initDedupState).totalRaw)
    ∧ ¬((runHearings (fun _ => none) (fun _ => none) [⟨5, 1, 0⟩] initDedupState).totalUnique
        ≤ (runHearings (fun _ => none) (fun _ => none) [⟨5, 1, 0⟩] initDedupState).totalRaw) := by
  refine ⟨rfl, rfl, rfl, ?_, ?_⟩ <;> simp [runHearings, OnGatewayReceiveWithContext, initDedupState]

/-- C1 amended: when every hearing of the sequence carries a gateway node id
known to the gateway-index map and a device address known to the
device-to-node map, the run from the zeroed state satisfies
`totalUnique + totalDuplicate = totalRaw`, `totalUnique ≤ totalRaw`, and the
raw counters are incremented on every such hearing: `totalRaw` equals the
number of hearings, and a single resolvable hearing bumps
`rawHearings[nodeId]`, `rawPerGateway[nodeId][gatewayIdx]` and
`totalRawPerGateway[gatewayIdx]` by one each. -/
theorem C1_dedup_invariant (gwMap devMap : ℕ → Option ℕ) (hearings : List Hearing)
    (hres : ∀ h ∈ hearings, (gwMap h.gwNodeId).isSome ∧ (devMap h.devAddr).isSome) :
    (runHearings gwMap devMap hearings initDedupState).totalUnique
        + (runHearings gwMap devMap hearings initDedupState).totalDuplicate
      = (runHearings gwMap devMap hearings initDedupState).totalRaw
    ∧ (runHearings gwMap devMap hearings initDedupState).totalUnique
        ≤ (runHearings gwMap devMap hearings initDedupState).totalRaw
    ∧ (runHearings gwMap devMap hearings initDedupState).totalRaw = hearings.length
    ∧ (∀ (st : DedupState) (h : Hearing) (gwIdx nodeId : ℕ),
        gwMap h.gwNodeId = some gwIdx → devMap h.devAddr = some nodeId →
        (OnGatewayReceiveWithContext gwMap devMap st h).totalRaw = st.totalRaw + 1
        ∧ (OnGatewayReceiveWithContext gwMap devMap st h).rawHearingsPerNode nodeId
            = st.rawHearingsPerNode nodeId + 1
        ∧ (OnGatewayReceiveWithContext gwMap devMap st h).rawPerGwPerNode nodeId gwIdx
            = st.rawPerGwPerNode nodeId gwIdx + 1
        ∧ (OnGatewayReceiveWithContext gwMap devMap st h).totalRawPerGw gwIdx
            = st.totalRawPerGw gwIdx + 1) := by
  have hrun := dedup_run_counts gwMap devMap hearings initDedupState hres
  rw [show initDedupState.totalRaw = 0 from rfl, show initDedupState.totalUnique = 0 from rfl,
    show initDedupState.totalDuplicate = 0 from rfl] at hrun
  refine ⟨?_, ?_, ?_, ?_⟩
  · omega
  · omega
  · omega
  · intro st h gwIdx nodeId hgw hdev
    have hstep := dedup_step_resolved gwMap devMap st h gwIdx nodeId hgw hdev
    exact ⟨hstep.1, hstep.2.2.1, hstep.2.2.2.1, hstep.2.2.2.2⟩

/-- C1 witness: the amended invariant at a concrete two-hearing run (the same
packet heard by two gateways), where the maps resolve everything. -/
theorem C1_dedup_invariant_witness :
    (runHearings (fun _ => some 0) (fun _ => some 7) [⟨1, 100, 7⟩, ⟨2, 100, 7⟩]
        initDedupState).totalUnique
      + (runHearings (fun _ => some 0) (fun _ => some 7) [⟨1, 100, 7⟩, ⟨2, 100, 7⟩]
          initDedupState).totalDuplicate
      = (runHearings (fun _ => some 0) (fun _ => some 7) [⟨1, 100, 7⟩, ⟨2, 100, 7⟩]
          initDedupState).totalRaw :=
  (C1_dedup_invariant (fun _ => some 0) (fun _ => some 7) [⟨1, 100, 7⟩, ⟨2, 100, 7⟩]
    (by intro h hmem; simp)).1

/-- C9: a hearing whose gateway node id misses the gateway-index map, or
whose device address misses the device-to-node map, still inserts its packet
key into the seen-key set and bumps exactly one of `totalUnique` /
`totalDuplicate`, and leaves `totalRaw` and every per-node and per-gateway
counter untouched. -/
theorem C9_unresolved_hearing_frame (gwMap devMap : ℕ → Option ℕ)
    (st : DedupState) (h : Hearing)
    (hfail : gwMap h.gwNodeId = none ∨ devMap h.devAddr = none) :
    (∀ k, k ∈ (OnGatewayReceiveWithContext gwMap devMap st h).seenKeys
        ↔ (k = MakePacketKey h.devAddr h.fcnt ∨ k ∈ st.seenKeys))
    ∧ (((OnGatewayReceiveWithContext gwMap devMap st h).totalUnique = st.totalUnique + 1
        ∧ (OnGatewayReceiveWithContext gwMap devMap st h).totalDuplicate = st.totalDuplicate)
      ∨ ((OnGatewayReceiveWithContext gwMap devMap st h).totalUnique = st.totalUnique
        ∧ (OnGatewayReceiveWithContext gwMap devMap st h).totalDuplicate = st.totalDuplicate + 1))
    ∧ (OnGatewayReceiveWithContext gwMap devMap st h).totalRaw = st.totalRaw
    ∧ (OnGatewayReceiveWithContext gwMap devMap st h).rawHearingsPerNode
        = st.rawHearingsPerNode
    ∧ (OnGatewayReceiveWithContext gwMap devMap st h).uniqueRecvPerNode
        = st.uniqueRecvPerNode
    ∧ (OnGatewayReceiveWithContext gwMap devMap st h).rawPerGwPerNode
        = st.rawPerGwPerNode
    ∧ (OnGatewayReceiveWithContext gwMap devMap st h).uniquePerGwPerNode
        = st.uniquePerGwPerNode
    ∧ (OnGatewayReceiveWithContext gwMap devMap st h).totalRawPerGw
        = st.totalRawPerGw := by
  have hst1 : OnGatewayReceiveWithContext gwMap devMap st h
      = { st with
          seenKeys := MakePacketKey h.devAddr h.fcnt :: st.seenKeys
          totalUnique := if MakePacketKey h.devAddr h.fcnt ∉ st.seenKeys
            then st.totalUnique + 1 else st.totalUnique
          totalDuplicate := if MakePacketKey h.devAddr h.fcnt ∉ st.seenKeys
            then st.totalDuplicate else st.totalDuplicate + 1 } := by
    unfold OnGatewayReceiveWithContext
    rcases hfail with hgw | hdev
    · rw [hgw]
    · cases hcase : gwMap h.gwNodeId with
      | none => rfl
      | some gwIdx => rw [hdev]
  rw [hst1]
  by_cases hfirst : MakePacketKey h.devAddr h.fcnt ∉ st.seenKeys
  · refine ⟨fun k => by simp, Or.inl ⟨by simp [hfirst], by simp [hfirst]⟩,
      rfl, rfl, rfl, rfl, rfl, rfl⟩
  · refine ⟨fun k => by simp, Or.inr ⟨by simp [hfirst], by simp [hfirst]⟩,
      rfl, rfl, rfl, rfl, rfl, rfl⟩

/-- C9 witness: the frame property at a concrete state and hearing whose
gateway id is unknown to the gateway-index map. -/
theorem C9_unresolved_hearing_frame_witness :
    (OnGatewayReceiveWithContext (fun _ => none) (fun _ => some 3) initDedupState
        ⟨9, 100, 7⟩).totalRaw = initDedupState.totalRaw :=
  (C9_unresolved_hearing_frame (fun _ => none) (fun _ => some 3) initDedupState
    ⟨9, 100, 7⟩ (Or.inl rfl)).2.2.1

lemma clampSf_of_range (sf : ℕ) (h7 : 7 ≤ sf) (h12 : sf ≤ 12) : clampSf sf = sf := by
  unfold clampSf
  omega

lemma max_zero_mul (c k : ℚ) (hk : 0 ≤ k) : (max 0 c) * k = max 0 (c * k) := by
  rw [max_mul_of_nonneg _ _ hk, zero_mul]

lemma ToA_ms_eq_mCeil (sf : ℕ) (bw : ℚ) (cr payload : ℕ) (eh crc : Bool)
    (pre extra : ℚ) (h7 : 7 ≤ sf) (h12 : sf ≤ 12) :
    ToA_ms sf bw cr payload eh crc pre extra
      = SymbolTime_ms sf bw
        * (pre + extra + (8 + ((cr : ℚ) + 4) * (mCeil payload eh crc sf : ℚ))) := by
  unfold ToA_ms
  rw [clampSf_of_range sf h7 h12]
  dsimp only
  have harg : (8 * (payload : ℚ) - 4 * (sf : ℚ) + 28 + 16 * ((crcTerm crc : ℤ) : ℚ)
        - 20 * ((headerTerm eh : ℤ) : ℚ))
        / (4 * ((sf : ℚ) - 2 * ((LdrOptimization sf : ℤ) : ℚ)))
      = (Anum payload eh crc sf : ℚ) / (Bden sf : ℚ) := by
    unfold Anum Bden
    push_cast
    ring
  rw [harg]
  have hc : ((mCeil payload eh crc sf : ℤ) : ℚ)
      = max 0 ((⌈(Anum payload eh crc sf : ℚ) / (Bden sf : ℚ)⌉ : ℤ) : ℚ) := by
    unfold mCeil
    push_cast
    rfl
  rw [← max_zero_mul _ _ (by positivity : (0 : ℚ) ≤ (cr : ℚ) + 4), ← hc]
  ring

lemma SymbolTime_ms_succ (sf : ℕ) (bw : ℚ) :
    SymbolTime_ms (sf + 1) bw = 2 * SymbolTime_ms sf bw := by
  unfold SymbolTime_ms
  rw [pow_succ]
  ring

lemma SymbolTime_ms_pos (sf : ℕ) : 0 < SymbolTime_ms sf 125000 := by
  unfold SymbolTime_ms
  positivity

lemma ceil_ratio_step (A B Bs : ℤ) (hB : 28 ≤ B) (hBs : 28 ≤ Bs)
    (hBB : Bs ≤ 2 * B) (hmul : 8 * B ≤ (B + 1) * (2 * B - Bs)) :
    max 0 ⌈(A : ℚ) / (B : ℚ)⌉ ≤ 2 * max 0 ⌈((A : ℚ) - 4) / (Bs : ℚ)⌉ + 1 := by
  have hBq : (0 : ℚ) < (B : ℚ) := by exact_mod_cast lt_of_lt_of_le (by norm_num) hB
  have hBsq : (0 : ℚ) < (Bs : ℚ) := by exact_mod_cast lt_of_lt_of_le (by norm_num) hBs
  have hm2 : (0 : ℤ) ≤ max 0 ⌈((A : ℚ) - 4) / (Bs : ℚ)⌉ := le_max_left 0 _
  by_cases hA : A ≤ B
  · have h1 : ⌈(A : ℚ) / (B : ℚ)⌉ ≤ 1 := by
      rw [Int.ceil_le]
      push_cast
      rw [div_le_one hBq]
      exact_mod_cast hA
    have hmax1 : max 0 ⌈(A : ℚ) / (B : ℚ)⌉ ≤ 1 := max_le (by norm_num) h1
    linarith
  · push_neg at hA
    have hAB : B + 1 ≤ A := hA
    have hkey : (A : ℚ) / (B : ℚ) ≤ 2 * (((A : ℚ) - 4) / (Bs : ℚ)) := by
      rw [show (2 : ℚ) * (((A : ℚ) - 4) / (Bs : ℚ)) = (2 * ((A : ℚ) - 4)) / (Bs : ℚ) by ring,
        div_le_div_iff hBq hBsq]
      have hz : (8 : ℤ) * B ≤ A * (2 * B - Bs) := by nlinarith
      have hzq : (8 : ℚ) * (B : ℚ) ≤ (A : ℚ) * (2 * (B : ℚ) - (Bs : ℚ)) := by exact_mod_cast hz
      nlinarith
    have hceil1 : ((⌈(A : ℚ) / (B : ℚ)⌉ : ℤ) : ℚ) < (A : ℚ) / (B : ℚ) + 1 :=
      Int.ceil_lt_add_one _
    have hceil2 : ((A : ℚ) - 4) / (Bs : ℚ) ≤ ((⌈((A : ℚ) - 4) / (Bs : ℚ)⌉ : ℤ) : ℚ) :=
      Int.le_ceil _
    have hq : ((⌈(A : ℚ) / (B : ℚ)⌉ : ℤ) : ℚ)
        < 2 * ((⌈((A : ℚ) - 4) / (Bs : ℚ)⌉ : ℤ) : ℚ) + 2 := by linarith
    have hz2 : ⌈(A : ℚ) / (B : ℚ)⌉ < 2 * ⌈((A : ℚ) - 4) / (Bs : ℚ)⌉ + 2 := by
      exact_mod_cast hq
    have hfinal : ⌈(A : ℚ) / (B : ℚ)⌉ ≤ 2 * ⌈((A : ℚ) - 4) / (Bs : ℚ)⌉ + 1 := by omega
    have hub : (0 : ℤ) ≤ 2 * max 0 ⌈((A : ℚ) - 4) / (Bs : ℚ)⌉ + 1 := by linarith
    exact max_le hub (by linarith [le_max_right (0 : ℤ) ⌈((A : ℚ) - 4) / (Bs : ℚ)⌉])

lemma mCeil_nonneg (payload : ℕ) (eh crc : Bool) (sf : ℕ) :
    0 ≤ mCeil payload eh crc sf := le_max_left 0 _

lemma mCeil_step (payload : ℕ) (eh crc : Bool) (sf : ℕ) (h7 : 7 ≤ sf) (h11 : sf ≤ 11) :
    mCeil payload eh crc sf ≤ 2 * mCeil payload eh crc (sf + 1) + 1 := by
  have hAsucc : Anum payload eh crc (sf + 1) = Anum payload eh crc sf - 4 := by
    unfold Anum
    push_cast
    ring
  unfold mCeil
  rw [hAsucc]
  rw [show ((Anum payload eh crc sf - 4 : ℤ) : ℚ) = (Anum payload eh crc sf : ℚ) - 4 by
    push_cast
    ring]
  interval_cases sf <;> apply ceil_ratio_step <;> norm_num [Bden, LdrOptimization]

lemma ToA_ms_step (sf cr payload : ℕ) (eh crc : Bool) (pre extra : ℚ)
    (h7 : 7 ≤ sf) (h11 : sf ≤ 11) (hcr : cr ≤ 4) (hpre : 0 ≤ pre) (hextra : 0 ≤ extra) :
    ToA_ms sf 125000 cr payload eh crc pre extra
      ≤ ToA_ms (sf + 1) 125000 cr payload eh crc pre extra := by
  rw [ToA_ms_eq_mCeil sf 125000 cr payload eh crc pre extra h7 (by omega),
    ToA_ms_eq_mCeil (sf + 1) 125000 cr payload eh crc pre extra (by omega) (by omega),
    SymbolTime_ms_succ]
  have ht := SymbolTime_ms_pos sf
  have hmq : (mCeil payload eh crc sf : ℚ) ≤ 2 * (mCeil payload eh crc (sf + 1) : ℚ) + 1 := by
    exact_mod_cast mCeil_step payload eh crc sf h7 h11
  have hm2q : (0 : ℚ) ≤ (mCeil payload eh crc (sf + 1) : ℚ) := by
    exact_mod_cast mCeil_nonneg payload eh crc (sf + 1)
  have hcrq : (cr : ℚ) ≤ 4 := by exact_mod_cast hcr
  have hcr0 : (0 : ℚ) ≤ (cr : ℚ) := Nat.cast_nonneg cr
  have hkm : ((cr : ℚ) + 4) * (mCeil payload eh crc sf : ℚ)
      ≤ 2 * (((cr : ℚ) + 4) * (mCeil payload eh crc (sf + 1) : ℚ)) + 8 := by
    nlinarith
  have hfactor : 0 ≤ SymbolTime_ms sf 125000
      * ((pre + extra)
        + (8 + 2 * (((cr : ℚ) + 4) * (mCeil payload eh crc (sf + 1) : ℚ))
          - ((cr : ℚ) + 4) * (mCeil payload eh crc sf : ℚ))) :=
    mul_nonneg ht.le (by linarith)
  nlinarith [hfactor]

/-- C8 counterexample: with the coding-rate offset at its `uint8` extreme
255, payload 3, implicit header and CRC off (all arguments `ToA_ms` accepts),
raising the spreading factor from 7 to 8 strictly reduces the time on air,
because the payload-symbol count collapses from 259 extra symbols to none. -/
theorem C8_counterexample :
    ¬(ToA_ms 7 125000 255 3 false false 8 4.25
        ≤ ToA_ms 8 125000 255 3 false false 8 4.25) := by
  norm_num [ToA_ms, clampSf, SymbolTime_ms, LdrOptimization, headerTerm, crcTerm]
  rw [show ⌈(1 : ℚ) / 7⌉ = (1 : ℤ) by rw [Int.ceil_eq_iff]; norm_num]
  norm_num

/-- C8 amended: for spreading factors `7 ≤ sf1 ≤ sf2 ≤ 12` at 125 kHz, with
the coding-rate denominator offset in its documented domain (`cr ≤ 4`,
i.e. coding rates 4/5..4/8) and nonnegative preamble symbol counts, and the
payload, header flag and CRC flag arbitrary but fixed, `ToA_ms` is
monotonically non-decreasing in the spreading factor. -/
theorem C8_toa_monotone (sf1 sf2 cr payload : ℕ) (eh crc : Bool) (pre extra : ℚ)
    (h7 : 7 ≤ sf1) (hle : sf1 ≤ sf2) (h12 : sf2 ≤ 12) (hcr : cr ≤ 4)
    (hpre : 0 ≤ pre) (hextra : 0 ≤ extra) :
    ToA_ms sf1 125000 cr payload eh crc pre extra
      ≤ ToA_ms sf2 125000 cr payload eh crc pre extra := by
  have key : ∀ n, sf1 ≤ n → n ≤ 12 →
      ToA_ms sf1 125000 cr payload eh crc pre extra
        ≤ ToA_ms n 125000 cr payload eh crc pre extra := by
    intro n hn
    induction n, hn using Nat.le_induction with
    | base => intro _; exact le_rfl
    | succ m hm ih =>
      intro hm12
      exact le_trans (ih (by omega))
        (ToA_ms_step m cr payload eh crc pre extra (by omega) (by omega) hcr hpre hextra)
  exact key sf2 hle h12

/-- C8 witness: monotonicity applied at the extreme spreading factors 7 and
12 with the default bandwidth, coding rate, payload and preamble. -/
theorem C8_toa_monotone_witness :
    ToA_ms 7 125000 1 51 true true 8 4.25 ≤ ToA_ms 12 125000 1 51 true true 8 4.25 :=
  C8_toa_monotone 7 12 1 51 true true 8 4.25 (by norm_num) (by norm_num) (by norm_num)
    (by norm_num) (by norm_num) (by norm_num)

end LorawanAdr
